import Mathlib

/-!
Verification of the MHBench MulVAL fact exporter
(`src/mulval/mulval_exporter.py`).

The exporter walks a `NetworkTopology` object and emits a MulVAL-compatible
fact base.  We embed the data model and the emission pipeline shallowly:
each `facts.append(...)` of the Python source becomes one element of a
`List Fact`, with the string arguments computed by the same helper
functions (`_prolog_atom`, `_namespace_username`, the `VULN_LOOKUP`
table).  Python strings are Lean `String`s; the character predicates
`str.islower` / `str.isalnum` are modelled for the ASCII alphabet the
repository uses (`Char.isLower`, `Char.isAlpha || Char.isDigit`).
-/

namespace MulvalExporter

/-! ## Data model

The exporter consumes a fully resolved topology.  The pydantic model
classes live outside this repository; the shapes below follow the spec's
data model (§3) and the attribute accesses the exporter performs.
-/

structure User where
  username : String
  is_admin : Bool
deriving Repr, DecidableEq

structure Vulnerability where
  playbook_path : String
  /-- Optional principal the exploited service runs as; `none` models an
  absent attribute, `some ""` an explicitly empty one. -/
  to_user : Option String
deriving Repr, DecidableEq

structure Host where
  id : String
  name : String
  users : List User
  vulnerabilities : List Vulnerability
deriving Repr, DecidableEq

structure Subnet where
  name : String
  external : Bool
  hosts : List Host
deriving Repr, DecidableEq

structure Network where
  name : String
  subnets : List Subnet
deriving Repr, DecidableEq

structure SubnetConnection where
  from_subnet : String
  to_subnet : String
  bidirectional : Bool
deriving Repr, DecidableEq

structure Goal where
  target_host_id : String
  /-- `getattr(goal, 'host_user', None)`: `none` models goal objects
  without the attribute. -/
  host_user : Option String
deriving Repr, DecidableEq

structure NetworkTopology where
  networks : List Network
  subnet_connections : List SubnetConnection
  goals : List Goal
deriving Repr, DecidableEq

/-- All subnets of the topology in traversal order (networks, then each
network's subnets). -/
def allSubnets (t : NetworkTopology) : List Subnet :=
  t.networks.flatMap (fun n => n.subnets)

/-- All hosts of the topology in traversal order. -/
def allHosts (t : NetworkTopology) : List Host :=
  (allSubnets t).flatMap (fun s => s.hosts)

/-- Modelled from the spec: `NetworkTopology.get_host_by_id` lives in the
upstream model package (`src.models`), which is not part of this
repository; only a test fake reproduces it.  Per the spec, a Goal carries
a "target host identifier" that the compiler resolves to a host, the
resolution failing (returning nothing) when no host carries the
identifier.  We model it as first-match search in traversal order. -/
def get_host_by_id (t : NetworkTopology) (host_id : String) : Option Host :=
  (allHosts t).find? (fun h => h.id == host_id)

/-! ## Atom sanitizer (`_prolog_atom`)

Python source:
```
if not name: return "''"
if name[0].islower() and all(c.isalnum() or c == '_' for c in name):
    return name
return f"'{name}'"
```
`islower` / `isalnum` are modelled on ASCII: `isalnum` is true for all
letters (either case) and digits.
-/

/-- ASCII model of Python's per-character `str.isalnum()`. -/
def pyIsAlnum (c : Char) : Bool :=
  c.isAlpha || c.isDigit

/-- Ensure a string is a safe Prolog atom (`_prolog_atom`). -/
def prolog_atom (name : String) : String :=
  match name.data with
  | [] => "''"
  | c :: _ =>
    if c.isLower && name.data.all (fun d => pyIsAlnum d || d = '_') then
      name
    else
      "'" ++ name ++ "'"

/-! ## Identity namespacer (`_namespace_username`) -/

/-- Namespace a username to a specific host (`_namespace_username`). -/
def namespace_username (username : String) (host_name : String) : String :=
  if username = "root" then "root"
  else username ++ "_" ++ host_name

/-! ## The fact lines

Each `facts.append(...)` of `emit_mulval_facts` appends one line; we model
the line list structurally, with a `render` function reproducing the exact
f-strings of the source. -/

inductive Fact where
  | comment (text : String)
  | blank
  | attackerLocated (loc : String)
  | attackGoal (host user : String)
  | hasAccount (user host perm : String)
  | hacl (src dst : String)
  | vulExists (host vid program : String)
  | networkServiceInfo (host program protocol : String) (port : Nat) (user : String)
  | vulProperty (vid range conseq : String)
deriving Repr, DecidableEq

/-- The exact line the Python source appends for each fact. -/
def Fact.render : Fact → String
  | .comment text => "/* " ++ text ++ " */"
  | .blank => ""
  | .attackerLocated loc => "attackerLocated(" ++ loc ++ ")."
  | .attackGoal host user => "attackGoal(execCode(" ++ host ++ ", " ++ user ++ "))."
  | .hasAccount user host perm =>
      "hasAccount(" ++ user ++ ", " ++ host ++ ", " ++ perm ++ ")."
  | .hacl src dst => "hacl(" ++ src ++ ", " ++ dst ++ ", _, _)."
  | .vulExists host vid program =>
      "vulExists(" ++ host ++ ", " ++ vid ++ ", " ++ program ++ ")."
  | .networkServiceInfo host program protocol port user =>
      "networkServiceInfo(" ++ host ++ ", " ++ program ++ ", " ++ protocol ++
        ", " ++ toString port ++ ", " ++ user ++ ")."
  | .vulProperty vid range conseq =>
      "vulProperty(" ++ vid ++ ", " ++ range ++ ", " ++ conseq ++ ")."

/-! ## Vulnerability lookup table (`VULN_LOOKUP`) -/

structure VulnMapping where
  vuln_id : String
  program : String
  range : String
  consequence : String
  protocol : Option String
  port : Option Nat
deriving Repr, DecidableEq

/-- The static `VULN_LOOKUP` dict, keyed by playbook path. -/
def VULN_LOOKUP : String → Option VulnMapping
  | "vulnerabilities/apacheStruts/setupStruts.yml" =>
      some ⟨"'CVE-2017-5638'", "httpd", "remoteExploit", "privEscalation",
        some "tcp", some 8080⟩
  | "vulnerabilities/NetcatShell.yml" =>
      some ⟨"netcatBackdoor", "netcat", "remoteExploit", "privEscalation",
        some "tcp", some 4444⟩
  | "deployment_instance/setup_server_ssh_keys/setup_ssh_keys.yml" =>
      some ⟨"sshKeyMisconfig", "sshd", "remoteExploit", "privEscalation",
        some "tcp", some 22⟩
  | "vulnerabilities/privledge_escalation/sudobaron/sudobaron.yml" =>
      some ⟨"'CVE-2021-3156'", "sudo", "localExploit", "privEscalation",
        none, none⟩
  | "vulnerabilities/privledge_escalation/writeablePasswd/writeablePasswd.yml" =>
      some ⟨"writeablePasswd", "kernel", "localExploit", "privEscalation",
        none, none⟩
  | _ => none

/-! ## Step 2: goals -/

/-- One iteration of the goal loop: the facts it appends and the warnings
it records. -/
def goalEmit (t : NetworkTopology) (g : Goal) : List Fact × List String :=
  match get_host_by_id t g.target_host_id with
  | none => ([], ["Goal references unknown host ID: " ++ g.target_host_id])
  | some target_host =>
    let target_username := g.host_user.getD "root"
    let namespaced_user := namespace_username target_username target_host.name
    ([.attackGoal (prolog_atom target_host.name) (prolog_atom namespaced_user)], [])

def goalsFacts (t : NetworkTopology) : List Fact :=
  t.goals.flatMap (fun g => (goalEmit t g).1)

def goalsWarnings (t : NetworkTopology) : List String :=
  t.goals.flatMap (fun g => (goalEmit t g).2)

/-! ## Step 3: user accounts -/

def accountFacts (h : Host) : List Fact :=
  h.users.map (fun u =>
    .hasAccount (prolog_atom (namespace_username u.username h.name))
      (prolog_atom h.name)
      (if u.is_admin then "root" else "user"))

def accountsFacts (t : NetworkTopology) : List Fact :=
  (allHosts t).flatMap accountFacts

/-! ## Step 4: network reachability (`hacl`) -/

/-- 4a: every host reaches itself. -/
def selfReachFacts (t : NetworkTopology) : List Fact :=
  (allHosts t).map (fun h => .hacl (prolog_atom h.name) (prolog_atom h.name))

/-- 4b: full intra-subnet mesh over distinct index pairs. -/
def intraSubnetFacts (s : Subnet) : List Fact :=
  s.hosts.enum.flatMap (fun p =>
    s.hosts.enum.filterMap (fun q =>
      if p.1 = q.1 then none
      else some (.hacl (prolog_atom p.2.name) (prolog_atom q.2.name))))

def intraFacts (t : NetworkTopology) : List Fact :=
  (allSubnets t).flatMap intraSubnetFacts

/-- The `subnet_hosts` dict of `_build_subnet_host_map`: keyed by subnet
name, a later subnet of the same name overwriting an earlier one. -/
def subnet_hosts_map (t : NetworkTopology) (name : String) : Option (List Host) :=
  ((allSubnets t).reverse.find? (fun s => s.name == name)).map (fun s => s.hosts)

/-- 4c, one connection: forward cross-product, then (if bidirectional)
the reverse cross-product.  `dict.get(key, [])` is `Option.getD _ []`. -/
def connFacts (t : NetworkTopology) (conn : SubnetConnection) : List Fact :=
  let from_hosts := (subnet_hosts_map t conn.from_subnet).getD []
  let to_hosts := (subnet_hosts_map t conn.to_subnet).getD []
  (from_hosts.flatMap (fun hf =>
    to_hosts.map (fun ht => .hacl (prolog_atom hf.name) (prolog_atom ht.name))))
  ++ (if conn.bidirectional then
        to_hosts.flatMap (fun ht =>
          from_hosts.map (fun hf =>
            Fact.hacl (prolog_atom ht.name) (prolog_atom hf.name)))
      else [])

def connsFacts (t : NetworkTopology) : List Fact :=
  t.subnet_connections.flatMap (connFacts t)

/-- 4d: internet ingress into every external subnet. -/
def internetFacts (t : NetworkTopology) : List Fact :=
  ((allSubnets t).filter (fun s => s.external)).flatMap (fun s =>
    s.hosts.map (fun h => .hacl "internet" (prolog_atom h.name)))

/-! ## Step 5: vulnerabilities and services -/

/-- One iteration of the per-vulnerability loop: appended facts, recorded
warnings, and the `(vuln_id, range, consequence)` triples added to
`vuln_properties_seen`. -/
def vulnEmit (host : Host) (v : Vulnerability) :
    List Fact × List String × List (String × String × String) :=
  match VULN_LOOKUP v.playbook_path with
  | none =>
    ([], ["No MulVAL mapping for playbook: " ++ v.playbook_path ++
      " (on host " ++ host.name ++ "). Skipping."], [])
  | some m =>
    let host_atom := prolog_atom host.name
    let svc : List Fact :=
      if m.range = "remoteExploit" then
        let service_user :=
          match v.to_user with
          | none => "root"
          | some u => if u = "" then "root" else u
        [.networkServiceInfo host_atom m.program (m.protocol.getD "")
          (m.port.getD 0)
          (prolog_atom (namespace_username service_user host.name))]
      else []
    (Fact.vulExists host_atom m.vuln_id m.program :: svc, [],
      [(m.vuln_id, m.range, m.consequence)])

/-- The per-host block of step 5: skipped entirely (comment included) when
the host has no vulnerabilities. -/
def hostVulnBlock (h : Host) :
    List Fact × List String × List (String × String × String) :=
  if h.vulnerabilities.isEmpty then ([], [], [])
  else
    (Fact.comment h.name :: h.vulnerabilities.flatMap (fun v => (vulnEmit h v).1),
      h.vulnerabilities.flatMap (fun v => (vulnEmit h v).2.1),
      h.vulnerabilities.flatMap (fun v => (vulnEmit h v).2.2))

def vulnFacts (t : NetworkTopology) : List Fact :=
  (allHosts t).flatMap (fun h => (hostVulnBlock h).1)

def vulnWarnings (t : NetworkTopology) : List String :=
  (allHosts t).flatMap (fun h => (hostVulnBlock h).2.1)

/-- The `vuln_properties_seen` contents in encounter order (the Python set
retains each member once; list order is irrelevant after sorting, which
`vulProperty_section_encounter_order_irrelevant` proves). -/
def seenTriples (t : NetworkTopology) : List (String × String × String) :=
  (allHosts t).flatMap (fun h => (hostVulnBlock h).2.2)

/-! ## Step 6: deduplicated vulnerability properties -/

/-- Python tuple comparison on the `(vuln_id, range, consequence)`
triples: lexicographic by component, strings compared by code point. -/
def tripleLe (a b : String × String × String) : Bool :=
  decide (a.1 < b.1 ∨ (a.1 = b.1 ∧
    (a.2.1 < b.2.1 ∨ (a.2.1 = b.2.1 ∧ a.2.2 ≤ b.2.2))))

/-- The relation `tripleLe` as a Prop, for sorting. -/
def tripleLeR (a b : String × String × String) : Prop :=
  tripleLe a b = true

instance : DecidableRel tripleLeR := fun a b => by
  unfold tripleLeR; infer_instance

/-- `sorted(vuln_properties_seen)` over the set of encountered triples:
deduplicate, sort ascending by `tripleLe` (Python's tuple order), and
render each triple as a `vulProperty` fact. -/
def vulPropertyFacts (seen : List (String × String × String)) : List Fact :=
  (List.insertionSort tripleLeR seen.dedup).map
    (fun p => .vulProperty p.1 p.2.1 p.2.2)

/-! ## Assembly (`emit_mulval_facts`) -/

/-- The full fact-line list and the warning list of `emit_mulval_facts`
(the source returns the lines joined by newlines and prints the warnings
to stderr). -/
def emit_mulval_facts (t : NetworkTopology) : List Fact × List String :=
  ([Fact.comment "Attacker location", .attackerLocated "internet", .blank,
    .comment "Attack goals"] ++ goalsFacts t ++ [Fact.blank,
    .comment "User accounts"] ++ accountsFacts t ++ [Fact.blank,
    .comment "Network reachability"] ++ selfReachFacts t ++ intraFacts t ++
    connsFacts t ++ internetFacts t ++ [Fact.blank,
    .comment "Vulnerabilities and services"] ++ vulnFacts t ++ [Fact.blank,
    .comment "Vulnerability properties (deduplicated)"] ++
    vulPropertyFacts (seenTriples t) ++ [Fact.blank],
   goalsWarnings t ++ vulnWarnings t)

/-- The string the Python function returns: the rendered lines joined by
newlines. -/
def emit_mulval_facts_string (t : NetworkTopology) : String :=
  String.intercalate "\n" ((emit_mulval_facts t).1.map Fact.render)

/-! ## Predicates used by the statements -/

/-- The exact unquoted-atom condition of `_prolog_atom`: first character
lowercase, every character alphanumeric or underscore. -/
def atomSafe (s : String) : Bool :=
  match s.data with
  | [] => false
  | c :: _ => c.isLower && s.data.all (fun d => pyIsAlnum d || d = '_')

/-- The spec's regex `^[a-z][a-z0-9_]*$`. -/
def lowerName (s : String) : Bool :=
  match s.data with
  | [] => false
  | c :: _ => c.isLower && s.data.all (fun d => d.isLower || d.isDigit || d = '_')

/-- Does a fact line assert `vulExists` for the given vulnerability id? -/
def isVulExistsWithId (vid : String) : Fact → Bool
  | .vulExists _ v _ => v == vid
  | _ => false

/-- Number of vulnerability occurrences (over all hosts) whose catalog
entry carries the given vulnerability id. -/
def occurrencesWithId (t : NetworkTopology) (vid : String) : Nat :=
  ((allHosts t).flatMap (fun h => h.vulnerabilities)).countP
    (fun v => ((VULN_LOOKUP v.playbook_path).map VulnMapping.vuln_id) == some vid)

/-! ## Concrete inputs for witnesses and counterexamples -/

def strutsPath : String := "vulnerabilities/apacheStruts/setupStruts.yml"

def strutsMapping : VulnMapping :=
  ⟨"'CVE-2017-5638'", "httpd", "remoteExploit", "privEscalation",
    some "tcp", some 8080⟩

def hostWeb : Host :=
  ⟨"id-web", "web_0", [⟨"tomcat", false⟩], [⟨strutsPath, none⟩]⟩

def hostDb : Host := ⟨"id-db", "db_0", [⟨"db0", false⟩], []⟩

/-- The spec's end-to-end scenario: an external DMZ subnet holding
`web_0`, an internal subnet holding `db_0`, one unidirectional
connection, one goal. -/
def topoScenario : NetworkTopology :=
  ⟨[⟨"net0", [⟨"dmz", true, [hostWeb]⟩, ⟨"corp", false, [hostDb]⟩]⟩],
   [⟨"dmz", "corp", false⟩],
   [⟨"id-db", some "db0"⟩]⟩

def hostPlain : Host := ⟨"id-0", "h0", [], []⟩

/-- One subnet connected to itself by a `SubnetConnection`. -/
def topoSelfLoop : NetworkTopology :=
  ⟨[⟨"net0", [⟨"s0", false, [hostPlain]⟩]⟩], [⟨"s0", "s0", false⟩], []⟩

def hostNamedInternet : Host := ⟨"id-1", "internet", [], []⟩

/-- An external subnet whose host is literally named `internet`. -/
def topoInternetHost : NetworkTopology :=
  ⟨[⟨"net0", [⟨"ext0", true, [hostNamedInternet]⟩]⟩], [], []⟩

/-- A connection whose destination subnet name matches no subnet. -/
def topoUnknownConn : NetworkTopology :=
  ⟨[⟨"net0", [⟨"s0", false, [hostPlain]⟩]⟩], [⟨"s0", "ghost", true⟩], []⟩

/-! ## Lemmas about the atom sanitizer -/

theorem atomSafe_nil {s : String} (hd : s.data = []) : atomSafe s = false := by
  unfold atomSafe; rw [hd]

theorem atomSafe_cons {s : String} {c : Char} {rest : List Char}
    (hd : s.data = c :: rest) :
    atomSafe s = (c.isLower && s.data.all (fun d => pyIsAlnum d || d = '_')) := by
  unfold atomSafe; rw [hd]

theorem lowerName_nil {s : String} (hd : s.data = []) : lowerName s = false := by
  unfold lowerName; rw [hd]

theorem lowerName_cons {s : String} {c : Char} {rest : List Char}
    (hd : s.data = c :: rest) :
    lowerName s = (c.isLower && s.data.all (fun d => d.isLower || d.isDigit || d = '_')) := by
  unfold lowerName; rw [hd]

theorem prolog_atom_nil {s : String} (hd : s.data = []) : prolog_atom s = "''" := by
  unfold prolog_atom; rw [hd]

theorem prolog_atom_cons {s : String} {c : Char} {rest : List Char}
    (hd : s.data = c :: rest) :
    prolog_atom s =
      if c.isLower && s.data.all (fun d => pyIsAlnum d || d = '_') then s
      else "'" ++ s ++ "'" := by
  unfold prolog_atom; rw [hd]

theorem prolog_atom_of_safe {s : String} (h : atomSafe s = true) :
    prolog_atom s = s := by
  cases hd : s.data with
  | nil => rw [atomSafe_nil hd] at h; cases h
  | cons c rest =>
    rw [atomSafe_cons hd] at h
    rw [prolog_atom_cons hd, if_pos h]

theorem prolog_atom_of_not_safe {s : String} (h : atomSafe s = false) :
    prolog_atom s = "'" ++ s ++ "'" := by
  cases hd : s.data with
  | nil =>
    have hs : s = "" := String.ext (by simp [hd])
    subst hs
    rfl
  | cons c rest =>
    rw [atomSafe_cons hd] at h
    rw [prolog_atom_cons hd, if_neg]
    intro hcond
    rw [hcond] at h
    cases h

/-- The sanitizer is injective: a quoted atom starts with a quote, an
unquoted one with a lowercase letter. -/
theorem prolog_atom_injective : Function.Injective prolog_atom := by
  intro a b hab
  have hquote : ∀ s : String, ("'" ++ s ++ "'").data = '\'' :: s.data ++ ['\''] := by
    intro s; simp [String.data_append]
  have hsafe_head : ∀ s : String, atomSafe s = true →
      ∃ c rest, s.data = c :: rest ∧ c.isLower = true := by
    intro s hs
    cases hd : s.data with
    | nil => rw [atomSafe_nil hd] at hs; cases hs
    | cons c rest =>
      rw [atomSafe_cons hd, Bool.and_eq_true] at hs
      exact ⟨c, rest, rfl, hs.1⟩
  cases hsa : atomSafe a <;> cases hsb : atomSafe b
  · rw [prolog_atom_of_not_safe hsa, prolog_atom_of_not_safe hsb] at hab
    have hd := congrArg String.data hab
    rw [hquote, hquote] at hd
    have := List.append_cancel_right (List.cons.injEq _ _ _ _ ▸ hd).2
    exact String.ext this
  · rw [prolog_atom_of_not_safe hsa, prolog_atom_of_safe hsb] at hab
    obtain ⟨c, rest, hbd, hcl⟩ := hsafe_head b hsb
    have hd := congrArg String.data hab
    rw [hquote, hbd] at hd
    have hc : c = '\'' := ((List.cons.injEq _ _ _ _ ▸ hd).1).symm
    rw [hc] at hcl
    exact absurd hcl (by decide)
  · rw [prolog_atom_of_safe hsa, prolog_atom_of_not_safe hsb] at hab
    obtain ⟨c, rest, had, hcl⟩ := hsafe_head a hsa
    have hd := congrArg String.data hab
    rw [hquote, had] at hd
    have hc : c = '\'' := (List.cons.injEq _ _ _ _ ▸ hd).1
    rw [hc] at hcl
    exact absurd hcl (by decide)
  · rw [prolog_atom_of_safe hsa, prolog_atom_of_safe hsb] at hab
    exact hab

/-- Appending distinct suffixes after a common prefix gives distinct
strings. -/
theorem append_right_inj {u h1 h2 : String}
    (h : u ++ "_" ++ h1 = u ++ "_" ++ h2) : h1 = h2 := by
  have hd := congrArg String.data h
  simp only [String.data_append] at hd
  exact String.ext (List.append_cancel_left hd)

/-! ## Membership plumbing -/

theorem mem_allHosts_of_mem_subnet {t : NetworkTopology} {s : Subnet} {x : Host}
    (hs : s ∈ allSubnets t) (hx : x ∈ s.hosts) : x ∈ allHosts t :=
  List.mem_flatMap.mpr ⟨s, hs, hx⟩

theorem subnet_hosts_map_some {t : NetworkTopology} {n : String} {hs : List Host}
    (h : subnet_hosts_map t n = some hs) :
    ∃ s, s ∈ allSubnets t ∧ s.name = n ∧ s.hosts = hs := by
  unfold subnet_hosts_map at h
  cases hf : (allSubnets t).reverse.find? (fun s => s.name == n) with
  | none => rw [hf] at h; cases h
  | some s =>
    rw [hf] at h
    have hmem : s ∈ (allSubnets t).reverse := List.mem_of_find?_eq_some hf
    have hname : (s.name == n) = true :=
      @List.find?_some _ (fun (s : Subnet) => s.name == n) _ _ hf
    refine ⟨s, List.mem_reverse.mp hmem, by simpa using hname, ?_⟩
    simpa using h

theorem subnet_hosts_map_none {t : NetworkTopology} {n : String}
    (h : ∀ s ∈ allSubnets t, s.name ≠ n) : subnet_hosts_map t n = none := by
  unfold subnet_hosts_map
  rw [List.find?_eq_none.mpr]
  · rfl
  · intro s hsm
    simpa using h s (List.mem_reverse.mp hsm)

theorem mem_emit_of_mem_conns {t : NetworkTopology} {f : Fact}
    (hf : f ∈ connsFacts t) : f ∈ (emit_mulval_facts t).1 := by
  simp only [emit_mulval_facts, List.append_assoc, List.cons_append,
    List.mem_append, List.mem_cons]
  tauto

theorem mem_emit_of_mem_vulnFacts {t : NetworkTopology} {f : Fact}
    (hf : f ∈ vulnFacts t) : f ∈ (emit_mulval_facts t).1 := by
  simp only [emit_mulval_facts, List.append_assoc, List.cons_append,
    List.mem_append, List.mem_cons]
  tauto

theorem mem_emit_of_mem_internet {t : NetworkTopology} {f : Fact}
    (hf : f ∈ internetFacts t) : f ∈ (emit_mulval_facts t).1 := by
  simp only [emit_mulval_facts, List.append_assoc, List.cons_append,
    List.mem_append, List.mem_cons]
  tauto

/-- C1: the superuser name `root` is emitted unchanged; a non-superuser
username `u` on host `h` is namespaced to `u_h`; for two distinct hosts
carrying the same non-superuser username, the emitted principal atoms are
distinct. -/
theorem C1_username_namespacing (u h1 h2 : String) (hu : u ≠ "root") :
    namespace_username "root" h1 = "root" ∧
    namespace_username u h1 = u ++ "_" ++ h1 ∧
    (h1 ≠ h2 →
      prolog_atom (namespace_username u h1) ≠
        prolog_atom (namespace_username u h2)) := by
  refine ⟨rfl, ?_, ?_⟩
  · unfold namespace_username
    rw [if_neg hu]
  · intro hne habs
    apply hne
    have := prolog_atom_injective habs
    unfold namespace_username at this
    rw [if_neg hu, if_neg hu] at this
    exact append_right_inj this

theorem C1_username_namespacing_witness :
    namespace_username "root" "host_a" = "root" ∧
    namespace_username "user_0" "host_a" = "user_0" ++ "_" ++ "host_a" ∧
    ("host_a" ≠ "host_b" →
      prolog_atom (namespace_username "user_0" "host_a") ≠
        prolog_atom (namespace_username "user_0" "host_b")) :=
  C1_username_namespacing "user_0" "host_a" "host_b" (by decide)

/-- C5 counterexample: `aB` starts with a lowercase letter and contains
`B`, a character outside `[a-z0-9_]`, yet the sanitizer returns it
unchanged instead of wrapping it in quotes. -/
theorem C5_counterexample :
    prolog_atom "aB" = "aB" ∧
    'B' ∈ "aB".data ∧
    ¬('B'.isLower = true ∨ 'B'.isDigit = true ∨ 'B' = '_') ∧
    prolog_atom "aB" ≠ "'aB'" := by
  refine ⟨by decide, by decide, by decide, by decide⟩

/-- C5 (amended): the sanitizer maps the empty string to the empty quoted
atom; it returns unchanged every name matching `^[a-z][a-z0-9_]*$` — and,
more generally, every name whose first character is lowercase and whose
characters are all alphanumeric (either case) or underscore; it wraps in
single quotes exactly the names outside that larger class. -/
theorem C5_prolog_atom_characterization (name : String) :
    (name = "" → prolog_atom name = "''") ∧
    (lowerName name = true → prolog_atom name = name) ∧
    (atomSafe name = true → prolog_atom name = name) ∧
    (atomSafe name = false → prolog_atom name = "'" ++ name ++ "'") := by
  refine ⟨?_, ?_, fun h => prolog_atom_of_safe h, fun h => prolog_atom_of_not_safe h⟩
  · intro h; subst h; rfl
  · intro h
    apply prolog_atom_of_safe
    cases hd : name.data with
    | nil => rw [lowerName_nil hd] at h; cases h
    | cons c rest =>
      rw [lowerName_cons hd, Bool.and_eq_true] at h
      rw [atomSafe_cons hd, Bool.and_eq_true]
      refine ⟨h.1, ?_⟩
      rw [List.all_eq_true] at h ⊢
      intro d hdm
      have hd3 := h.2 d hdm
      rw [Bool.or_eq_true, Bool.or_eq_true] at hd3
      rcases hd3 with (hl | hdg) | hu
      · simp [pyIsAlnum, Char.isAlpha, hl]
      · simp [pyIsAlnum, hdg]
      · simp [hu]

/-- C10: a remote-exploit vulnerability whose `to_user` is absent or the
empty string yields a `networkServiceInfo` fact whose principal argument
is the unnamespaced superuser atom `root`. -/
theorem C10_service_user_defaults_to_root
    (t : NetworkTopology) (h : Host) (v : Vulnerability) (m : VulnMapping)
    (hh : h ∈ allHosts t) (hv : v ∈ h.vulnerabilities)
    (hm : VULN_LOOKUP v.playbook_path = some m)
    (hr : m.range = "remoteExploit")
    (hu : v.to_user = none ∨ v.to_user = some "") :
    (vulnEmit h v).1 =
      [Fact.vulExists (prolog_atom h.name) m.vuln_id m.program,
       Fact.networkServiceInfo (prolog_atom h.name) m.program (m.protocol.getD "")
         (m.port.getD 0) "root"] ∧
    Fact.networkServiceInfo (prolog_atom h.name) m.program (m.protocol.getD "")
      (m.port.getD 0) "root" ∈ (emit_mulval_facts t).1 := by
  have h1 : (vulnEmit h v).1 =
      [Fact.vulExists (prolog_atom h.name) m.vuln_id m.program,
       Fact.networkServiceInfo (prolog_atom h.name) m.program (m.protocol.getD "")
         (m.port.getD 0) "root"] := by
    unfold vulnEmit
    rw [hm]
    rcases hu with hu | hu <;>
      simp [hu, hr, namespace_username, prolog_atom_of_safe (by decide : atomSafe "root" = true)]
  refine ⟨h1, ?_⟩
  apply mem_emit_of_mem_vulnFacts
  unfold vulnFacts
  rw [List.mem_flatMap]
  refine ⟨h, hh, ?_⟩
  unfold hostVulnBlock
  rw [if_neg (by simp [List.isEmpty_iff]; intro hnil; rw [hnil] at hv; cases hv)]
  rw [List.mem_cons]
  right
  rw [List.mem_flatMap]
  exact ⟨v, hv, by rw [h1]; simp⟩

theorem C10_witness :
    (vulnEmit hostWeb ⟨strutsPath, none⟩).1 =
      [Fact.vulExists (prolog_atom hostWeb.name) strutsMapping.vuln_id strutsMapping.program,
       Fact.networkServiceInfo (prolog_atom hostWeb.name) strutsMapping.program
         (strutsMapping.protocol.getD "") (strutsMapping.port.getD 0) "root"] ∧
    Fact.networkServiceInfo (prolog_atom hostWeb.name) strutsMapping.program
      (strutsMapping.protocol.getD "") (strutsMapping.port.getD 0) "root" ∈
        (emit_mulval_facts topoScenario).1 :=
  C10_service_user_defaults_to_root topoScenario hostWeb ⟨strutsPath, none⟩
    strutsMapping (by decide) (by decide) (by decide) (by decide) (Or.inl rfl)

/-- C2: a SubnetConnection contributes the full forward cross-product of
`hacl` facts; the reverse cross-product is contributed iff the connection
is bidirectional — a unidirectional connection produces no reverse fact. -/
theorem C2_connection_cross_products
    (t : NetworkTopology) (conn : SubnetConnection)
    (hconn : conn ∈ t.subnet_connections)
    (from_hosts to_hosts : List Host)
    (hf : (subnet_hosts_map t conn.from_subnet).getD [] = from_hosts)
    (ht : (subnet_hosts_map t conn.to_subnet).getD [] = to_hosts)
    (hdisj : ∀ a ∈ from_hosts, ∀ b ∈ to_hosts, a.name ≠ b.name) :
    (∀ a ∈ from_hosts, ∀ b ∈ to_hosts,
      Fact.hacl (prolog_atom a.name) (prolog_atom b.name) ∈ (emit_mulval_facts t).1) ∧
    (conn.bidirectional = true → ∀ b ∈ to_hosts, ∀ a ∈ from_hosts,
      Fact.hacl (prolog_atom b.name) (prolog_atom a.name) ∈ (emit_mulval_facts t).1) ∧
    (conn.bidirectional = false → ∀ b ∈ to_hosts, ∀ a ∈ from_hosts,
      Fact.hacl (prolog_atom b.name) (prolog_atom a.name) ∉ connFacts t conn) := by
  have hsub : ∀ g ∈ connFacts t conn, g ∈ (emit_mulval_facts t).1 := by
    intro g hg
    apply mem_emit_of_mem_conns
    unfold connsFacts
    exact List.mem_flatMap.mpr ⟨conn, hconn, hg⟩
  refine ⟨?_, ?_, ?_⟩
  · intro a ha b hb
    apply hsub
    unfold connFacts
    rw [hf, ht, List.mem_append]
    left
    exact List.mem_flatMap.mpr ⟨a, ha, List.mem_map_of_mem _ hb⟩
  · intro hbidi b hb a ha
    apply hsub
    unfold connFacts
    rw [hf, ht, List.mem_append]
    right
    rw [hbidi]
    simp only [if_true]
    exact List.mem_flatMap.mpr ⟨b, hb, List.mem_map_of_mem _ ha⟩
  · intro hbidi b hb a ha hmem
    unfold connFacts at hmem
    rw [hf, ht, hbidi, List.mem_append] at hmem
    simp only [Bool.false_eq_true, if_false, List.mem_nil_iff, or_false] at hmem
    obtain ⟨x, hx, hxm⟩ := List.mem_flatMap.mp hmem
    obtain ⟨y, hy, hym⟩ := List.mem_map.mp hxm
    obtain ⟨h1, -⟩ := (Fact.hacl.injEq _ _ _ _).mp hym.symm
    exact hdisj x hx b hb (prolog_atom_injective h1.symm)

theorem C2_witness :
    (∀ a ∈ [hostWeb], ∀ b ∈ [hostDb],
      Fact.hacl (prolog_atom a.name) (prolog_atom b.name) ∈
        (emit_mulval_facts topoScenario).1) ∧
    ((⟨"dmz", "corp", false⟩ : SubnetConnection).bidirectional = true →
      ∀ b ∈ [hostDb], ∀ a ∈ [hostWeb],
        Fact.hacl (prolog_atom b.name) (prolog_atom a.name) ∈
          (emit_mulval_facts topoScenario).1) ∧
    ((⟨"dmz", "corp", false⟩ : SubnetConnection).bidirectional = false →
      ∀ b ∈ [hostDb], ∀ a ∈ [hostWeb],
        Fact.hacl (prolog_atom b.name) (prolog_atom a.name) ∉
          connFacts topoScenario ⟨"dmz", "corp", false⟩) :=
  C2_connection_cross_products topoScenario ⟨"dmz", "corp", false⟩ (by decide)
    [hostWeb] [hostDb] (by decide) (by decide) (by decide)

/-- C9: a connection whose `from_subnet` or `to_subnet` matches no subnet
of the topology resolves to an empty host list: it contributes zero hacl
facts, and removing it from the connection list leaves the whole output
(facts and warnings) unchanged. -/
theorem C9_unknown_subnet_connection
    (t : NetworkTopology) (conn : SubnetConnection)
    (hunknown : (∀ s ∈ allSubnets t, s.name ≠ conn.from_subnet) ∨
                (∀ s ∈ allSubnets t, s.name ≠ conn.to_subnet)) :
    connFacts t conn = [] ∧
    (∀ pre post, t.subnet_connections = pre ++ conn :: post →
      (emit_mulval_facts t).1 =
        (emit_mulval_facts ⟨t.networks, pre ++ post, t.goals⟩).1 ∧
      (emit_mulval_facts t).2 =
        (emit_mulval_facts ⟨t.networks, pre ++ post, t.goals⟩).2) := by
  have hnil : connFacts t conn = [] := by
    rcases hunknown with hun | hun <;>
      { have hnone := subnet_hosts_map_none hun
        unfold connFacts
        rw [hnone]
        simp }
  refine ⟨hnil, ?_⟩
  intro pre post hsplit
  have hconns : connsFacts t = connsFacts ⟨t.networks, pre ++ post, t.goals⟩ := by
    show t.subnet_connections.flatMap (connFacts t) =
      (pre ++ post).flatMap (connFacts t)
    rw [hsplit, List.flatMap_append, List.flatMap_cons, hnil, List.flatMap_append]
    simp
  constructor
  · show (emit_mulval_facts t).1 = _
    simp only [emit_mulval_facts]
    rw [hconns]
    exact rfl
  · exact rfl

theorem C9_witness :
    connFacts topoUnknownConn ⟨"s0", "ghost", true⟩ = [] ∧
    (∀ pre post,
      topoUnknownConn.subnet_connections = pre ++ (⟨"s0", "ghost", true⟩ : SubnetConnection) :: post →
      (emit_mulval_facts topoUnknownConn).1 =
        (emit_mulval_facts ⟨topoUnknownConn.networks, pre ++ post, topoUnknownConn.goals⟩).1 ∧
      (emit_mulval_facts topoUnknownConn).2 =
        (emit_mulval_facts ⟨topoUnknownConn.networks, pre ++ post, topoUnknownConn.goals⟩).2) :=
  C9_unknown_subnet_connection topoUnknownConn ⟨"s0", "ghost", true⟩ (Or.inr (by decide))

/-- C8: soft errors skip only the affected item.  A goal whose target host
id resolves to no host adds exactly one warning and no fact, the fact
document equalling the one for the goal list without it; a vulnerability
missing from the catalog adds exactly one warning and no facts, the
host's block still carrying every other vulnerability's facts. -/
theorem C8_soft_errors_skip_only_affected_item :
    (∀ (t : NetworkTopology) (g : Goal) (pre post : List Goal),
      t.goals = pre ++ g :: post →
      get_host_by_id t g.target_host_id = none →
      (emit_mulval_facts t).1 =
        (emit_mulval_facts ⟨t.networks, t.subnet_connections, pre ++ post⟩).1 ∧
      (emit_mulval_facts t).2 =
        pre.flatMap (fun g' => (goalEmit t g').2) ++
          ("Goal references unknown host ID: " ++ g.target_host_id) ::
            (post.flatMap (fun g' => (goalEmit t g').2) ++ vulnWarnings t)) ∧
    (∀ (h : Host) (v : Vulnerability) (pre post : List Vulnerability),
      h.vulnerabilities = pre ++ v :: post →
      VULN_LOOKUP v.playbook_path = none →
      (vulnEmit h v).1 = [] ∧
      (vulnEmit h v).2.1 =
        ["No MulVAL mapping for playbook: " ++ v.playbook_path ++
          " (on host " ++ h.name ++ "). Skipping."] ∧
      (hostVulnBlock h).1 =
        Fact.comment h.name ::
          (pre.flatMap (fun v' => (vulnEmit h v').1) ++
            post.flatMap (fun v' => (vulnEmit h v').1)) ∧
      (hostVulnBlock h).2.1 =
        pre.flatMap (fun v' => (vulnEmit h v').2.1) ++
          ("No MulVAL mapping for playbook: " ++ v.playbook_path ++
            " (on host " ++ h.name ++ "). Skipping.") ::
            post.flatMap (fun v' => (vulnEmit h v').2.1)) := by
  constructor
  · intro t g pre post hsplit hnone
    have hge : (goalEmit t g).1 = [] := by
      unfold goalEmit; rw [hnone]
    have hgw : (goalEmit t g).2 =
        ["Goal references unknown host ID: " ++ g.target_host_id] := by
      unfold goalEmit; rw [hnone]
    constructor
    · have hgoals : goalsFacts t =
          goalsFacts ⟨t.networks, t.subnet_connections, pre ++ post⟩ := by
        show t.goals.flatMap (fun g' => (goalEmit t g').1) =
          (pre ++ post).flatMap (fun g' => (goalEmit t g').1)
        rw [hsplit, List.flatMap_append, List.flatMap_cons, hge,
          List.flatMap_append]
        simp
      simp only [emit_mulval_facts]
      rw [hgoals]
      exact rfl
    · show goalsWarnings t ++ vulnWarnings t = _
      unfold goalsWarnings
      rw [hsplit, List.flatMap_append, List.flatMap_cons, hgw]
      simp
  · intro h v pre post hsplit hnone
    have hv1 : (vulnEmit h v).1 = [] := by
      unfold vulnEmit; rw [hnone]
    have hv2 : (vulnEmit h v).2.1 =
        ["No MulVAL mapping for playbook: " ++ v.playbook_path ++
          " (on host " ++ h.name ++ "). Skipping."] := by
      unfold vulnEmit; rw [hnone]
    refine ⟨hv1, hv2, ?_, ?_⟩
    · unfold hostVulnBlock
      rw [hsplit]
      rw [if_neg (by cases pre <;> simp)]
      simp only [List.flatMap_append, List.flatMap_cons, hv1]
      simp
    · unfold hostVulnBlock
      rw [hsplit]
      rw [if_neg (by cases pre <;> simp)]
      simp only [List.flatMap_append, List.flatMap_cons, hv2]
      simp

/-! ## Shape of each section's facts -/

theorem goalsFacts_shape {t : NetworkTopology} {f : Fact}
    (hf : f ∈ goalsFacts t) : ∃ a b, f = Fact.attackGoal a b := by
  obtain ⟨g, -, hfg⟩ := List.mem_flatMap.mp hf
  unfold goalEmit at hfg
  cases hl : get_host_by_id t g.target_host_id <;> rw [hl] at hfg
  · cases hfg
  · rw [List.mem_singleton] at hfg
    exact ⟨_, _, hfg⟩

theorem accountsFacts_shape {t : NetworkTopology} {f : Fact}
    (hf : f ∈ accountsFacts t) :
    ∃ h, h ∈ allHosts t ∧ ∃ u, u ∈ h.users ∧
      f = Fact.hasAccount (prolog_atom (namespace_username u.username h.name))
        (prolog_atom h.name) (if u.is_admin then "root" else "user") := by
  obtain ⟨h, hh, hfa⟩ := List.mem_flatMap.mp hf
  obtain ⟨u, hu, hfu⟩ := List.mem_map.mp hfa
  exact ⟨h, hh, u, hu, hfu.symm⟩

theorem vulnEmit_shape {h : Host} {v : Vulnerability} {f : Fact}
    (hf : f ∈ (vulnEmit h v).1) :
    ∃ m, VULN_LOOKUP v.playbook_path = some m ∧
      (f = Fact.vulExists (prolog_atom h.name) m.vuln_id m.program ∨
       ∃ u, f = Fact.networkServiceInfo (prolog_atom h.name) m.program
         (m.protocol.getD "") (m.port.getD 0) u) := by
  unfold vulnEmit at hf
  cases hl : VULN_LOOKUP v.playbook_path <;> rw [hl] at hf
  · cases hf
  · next m =>
    refine ⟨m, rfl, ?_⟩
    rw [List.mem_cons] at hf
    rcases hf with hf | hf
    · exact Or.inl hf
    · right
      by_cases hr : m.range = "remoteExploit"
      · rw [if_pos hr] at hf
        rw [List.mem_singleton] at hf
        exact ⟨_, hf⟩
      · rw [if_neg hr] at hf
        cases hf

theorem vulnFacts_shape {t : NetworkTopology} {f : Fact}
    (hf : f ∈ vulnFacts t) :
    (∃ s, f = Fact.comment s) ∨
    (∃ h, h ∈ allHosts t ∧ ∃ v, v ∈ h.vulnerabilities ∧
      ∃ m, VULN_LOOKUP v.playbook_path = some m ∧
        (f = Fact.vulExists (prolog_atom h.name) m.vuln_id m.program ∨
         ∃ u, f = Fact.networkServiceInfo (prolog_atom h.name) m.program
           (m.protocol.getD "") (m.port.getD 0) u)) := by
  obtain ⟨h, hh, hfb⟩ := List.mem_flatMap.mp hf
  unfold hostVulnBlock at hfb
  by_cases he : h.vulnerabilities.isEmpty
  · rw [if_pos he] at hfb; cases hfb
  · rw [if_neg he] at hfb
    rw [List.mem_cons] at hfb
    rcases hfb with hfb | hfb
    · exact Or.inl ⟨_, hfb⟩
    · obtain ⟨v, hv, hfv⟩ := List.mem_flatMap.mp hfb
      obtain ⟨m, hm, hshape⟩ := vulnEmit_shape hfv
      exact Or.inr ⟨h, hh, v, hv, m, hm, hshape⟩

theorem vulPropertyFacts_shape {seen : List (String × String × String)} {f : Fact}
    (hf : f ∈ vulPropertyFacts seen) :
    ∃ p, p ∈ seen ∧ f = Fact.vulProperty p.1 p.2.1 p.2.2 := by
  obtain ⟨p, hp, hfp⟩ := List.mem_map.mp hf
  have hp2 : p ∈ seen.dedup :=
    (List.perm_insertionSort tripleLeR seen.dedup).mem_iff.mp hp
  exact ⟨p, List.mem_dedup.mp hp2, hfp.symm⟩

theorem selfReachFacts_shape {t : NetworkTopology} {f : Fact}
    (hf : f ∈ selfReachFacts t) :
    ∃ h, h ∈ allHosts t ∧
      f = Fact.hacl (prolog_atom h.name) (prolog_atom h.name) := by
  obtain ⟨h, hh, hfh⟩ := List.mem_map.mp hf
  exact ⟨h, hh, hfh.symm⟩

theorem intraFacts_shape {t : NetworkTopology} {f : Fact}
    (hf : f ∈ intraFacts t) :
    ∃ s, s ∈ allSubnets t ∧ ∃ i j a b, i ≠ j ∧
      (i, a) ∈ s.hosts.enum ∧ (j, b) ∈ s.hosts.enum ∧
      f = Fact.hacl (prolog_atom a.name) (prolog_atom b.name) := by
  obtain ⟨s, hs, hfs⟩ := List.mem_flatMap.mp hf
  unfold intraSubnetFacts at hfs
  obtain ⟨p, hp, hfp⟩ := List.mem_flatMap.mp hfs
  obtain ⟨q, hq, hfq⟩ := List.mem_filterMap.mp hfp
  by_cases hij : p.1 = q.1
  · rw [if_pos hij] at hfq; cases hfq
  · rw [if_neg hij] at hfq
    rw [Option.some_inj] at hfq
    exact ⟨s, hs, p.1, q.1, p.2, q.2, hij, hp, hq, hfq.symm⟩

theorem connFacts_shape {t : NetworkTopology} {conn : SubnetConnection} {f : Fact}
    (hf : f ∈ connFacts t conn) :
    ∃ hs1 hs2, subnet_hosts_map t conn.from_subnet = some hs1 ∧
      subnet_hosts_map t conn.to_subnet = some hs2 ∧
      ((∃ x, x ∈ hs1 ∧ ∃ y, y ∈ hs2 ∧
          f = Fact.hacl (prolog_atom x.name) (prolog_atom y.name)) ∨
       (conn.bidirectional = true ∧ ∃ x, x ∈ hs2 ∧ ∃ y, y ∈ hs1 ∧
          f = Fact.hacl (prolog_atom x.name) (prolog_atom y.name))) := by
  unfold connFacts at hf
  rw [List.mem_append] at hf
  cases hm1 : subnet_hosts_map t conn.from_subnet with
  | none =>
    rw [hm1] at hf
    rcases hf with hf | hf
    · simp at hf
    · rcases hb : conn.bidirectional <;> rw [hb] at hf <;> simp at hf
  | some hs1 =>
    cases hm2 : subnet_hosts_map t conn.to_subnet with
    | none =>
      rw [hm1, hm2] at hf
      rcases hf with hf | hf
      · simp at hf
      · rcases hb : conn.bidirectional <;> rw [hb] at hf <;> simp at hf
    | some hs2 =>
      rw [hm1, hm2] at hf
      refine ⟨hs1, hs2, rfl, rfl, ?_⟩
      rcases hf with hf | hf
      · obtain ⟨x, hx, hfx⟩ := List.mem_flatMap.mp hf
        obtain ⟨y, hy, hfy⟩ := List.mem_map.mp hfx
        exact Or.inl ⟨x, by simpa using hx, y, by simpa using hy, hfy.symm⟩
      · rcases hb : conn.bidirectional <;> rw [hb] at hf
        · cases hf
        · simp only [if_true] at hf
          obtain ⟨x, hx, hfx⟩ := List.mem_flatMap.mp hf
          obtain ⟨y, hy, hfy⟩ := List.mem_map.mp hfx
          exact Or.inr ⟨rfl, x, by simpa using hx, y, by simpa using hy, hfy.symm⟩

theorem internetFacts_shape {t : NetworkTopology} {f : Fact}
    (hf : f ∈ internetFacts t) :
    ∃ s, s ∈ allSubnets t ∧ s.external = true ∧ ∃ h, h ∈ s.hosts ∧
      f = Fact.hacl "internet" (prolog_atom h.name) := by
  obtain ⟨s, hs, hfs⟩ := List.mem_flatMap.mp hf
  rw [List.mem_filter] at hs
  obtain ⟨h, hh, hfh⟩ := List.mem_map.mp hfs
  exact ⟨s, hs.1, hs.2, h, hh, hfh.symm⟩

/-! ## Uniqueness of host names across the topology -/

theorem allHosts_names_flatten (t : NetworkTopology) :
    (allHosts t).map Host.name =
      ((allSubnets t).map (fun s => s.hosts.map Host.name)).flatten := by
  unfold allHosts
  rw [List.map_flatMap, List.flatMap_def]

theorem subnet_names_nodup {t : NetworkTopology}
    (hnodup : ((allHosts t).map Host.name).Nodup)
    {s : Subnet} (hs : s ∈ allSubnets t) : (s.hosts.map Host.name).Nodup := by
  rw [allHosts_names_flatten] at hnodup
  exact (List.nodup_flatten.mp hnodup).1 _ (List.mem_map_of_mem _ hs)

theorem names_disjoint {t : NetworkTopology}
    (hnodup : ((allHosts t).map Host.name).Nodup)
    {s1 s2 : Subnet} (h1 : s1 ∈ allSubnets t) (h2 : s2 ∈ allSubnets t)
    (hne : s1 ≠ s2) {x y : Host}
    (hx : x ∈ s1.hosts) (hy : y ∈ s2.hosts) : x.name ≠ y.name := by
  rw [allHosts_names_flatten] at hnodup
  have hpw := (List.nodup_flatten.mp hnodup).2
  rw [List.pairwise_map] at hpw
  have hd := hpw.forall (fun a b hab => hab.symm) h1 h2 hne
  intro heq
  exact (List.disjoint_left.mp hd (List.mem_map_of_mem _ hx))
    (heq ▸ List.mem_map_of_mem _ hy)

/-- Case split for membership in the assembled fact list. -/
theorem mem_emit_cases {t : NetworkTopology} {f : Fact}
    (hf : f ∈ (emit_mulval_facts t).1) :
    f = Fact.comment "Attacker location" ∨ f = Fact.attackerLocated "internet" ∨
    f = Fact.blank ∨ f = Fact.comment "Attack goals" ∨ f ∈ goalsFacts t ∨
    f = Fact.comment "User accounts" ∨ f = Fact.comment "Network reachability" ∨
    f ∈ accountsFacts t ∨ f ∈ selfReachFacts t ∨ f ∈ intraFacts t ∨
    f ∈ connsFacts t ∨ f ∈ internetFacts t ∨
    f = Fact.comment "Vulnerabilities and services" ∨ f ∈ vulnFacts t ∨
    f = Fact.comment "Vulnerability properties (deduplicated)" ∨
    f ∈ vulPropertyFacts (seenTriples t) := by
  simp only [emit_mulval_facts, List.append_assoc, List.cons_append,
    List.mem_append, List.mem_cons, List.mem_singleton, List.not_mem_nil,
    or_false] at hf
  tauto

/-- Every `hacl` fact's destination argument is the sanitized name of a
host of the topology. -/
theorem hacl_dst_of_mem_emit {t : NetworkTopology} {a b : String}
    (hf : Fact.hacl a b ∈ (emit_mulval_facts t).1) :
    ∃ h, h ∈ allHosts t ∧ b = prolog_atom h.name := by
  rcases mem_emit_cases hf with
    h|h|h|h|h|h|h|h|h|h|h|h|h|h|h|h
  · cases h
  · cases h
  · cases h
  · cases h
  · obtain ⟨x, y, hxy⟩ := goalsFacts_shape h; cases hxy
  · cases h
  · cases h
  · obtain ⟨x, -, u, -, hxy⟩ := accountsFacts_shape h; cases hxy
  · obtain ⟨h', hh', heq⟩ := selfReachFacts_shape h
    obtain ⟨-, h2⟩ := (Fact.hacl.injEq _ _ _ _).mp heq
    exact ⟨h', hh', h2⟩
  · obtain ⟨s, hs, i, j, x, y, -, -, hq, heq⟩ := intraFacts_shape h
    obtain ⟨-, h2⟩ := (Fact.hacl.injEq _ _ _ _).mp heq
    exact ⟨y, mem_allHosts_of_mem_subnet hs (List.snd_mem_of_mem_enum hq), h2⟩
  · obtain ⟨conn, -, hc⟩ := List.mem_flatMap.mp h
    obtain ⟨hs1, hs2, hm1, hm2, hcase⟩ := connFacts_shape hc
    obtain ⟨sf, hsf, -, hhs1⟩ := subnet_hosts_map_some hm1
    obtain ⟨st, hst, -, hhs2⟩ := subnet_hosts_map_some hm2
    rcases hcase with ⟨x, hx, y, hy, heq⟩ | ⟨-, x, hx, y, hy, heq⟩
    · obtain ⟨-, h2⟩ := (Fact.hacl.injEq _ _ _ _).mp heq
      exact ⟨y, mem_allHosts_of_mem_subnet hst (hhs2 ▸ hy), h2⟩
    · obtain ⟨-, h2⟩ := (Fact.hacl.injEq _ _ _ _).mp heq
      exact ⟨y, mem_allHosts_of_mem_subnet hsf (hhs1 ▸ hy), h2⟩
  · obtain ⟨s, hs, -, h', hh', heq⟩ := internetFacts_shape h
    obtain ⟨-, h2⟩ := (Fact.hacl.injEq _ _ _ _).mp heq
    exact ⟨h', mem_allHosts_of_mem_subnet hs hh', h2⟩
  · cases h
  · rcases vulnFacts_shape h with ⟨s, hc⟩ | ⟨h', -, v, -, m, -, hc | ⟨u, hc⟩⟩ <;> cases hc
  · cases h
  · obtain ⟨p, -, hc⟩ := vulPropertyFacts_shape h; cases hc

/-- C4 counterexample: in a topology whose external subnet contains a host
literally named `internet`, the output does contain a fact
`hacl(H, internet, _, _)` for a host H (namely that host's own
self-reachability fact). -/
theorem C4_counterexample :
    Fact.hacl "internet" "internet" ∈ (emit_mulval_facts topoInternetHost).1 ∧
    hostNamedInternet ∈ allHosts topoInternetHost ∧
    prolog_atom hostNamedInternet.name = "internet" ∧
    Fact.hacl (prolog_atom hostNamedInternet.name) "internet" ∈
      (emit_mulval_facts topoInternetHost).1 := by
  refine ⟨by decide, by decide, by decide, by decide⟩

/-- C4 (amended): provided no host of the topology is literally named
`internet`, every host of an external subnet receives an ingress fact
`hacl(internet, H, _, _)`, and no fact `hacl(_, internet, _, _)` is ever
emitted. -/
theorem C4_internet_ingress_only (t : NetworkTopology)
    (hni : ∀ h ∈ allHosts t, h.name ≠ "internet") :
    (∀ s ∈ allSubnets t, s.external = true → ∀ h ∈ s.hosts,
      Fact.hacl "internet" (prolog_atom h.name) ∈ (emit_mulval_facts t).1) ∧
    (∀ a, Fact.hacl a "internet" ∉ (emit_mulval_facts t).1) := by
  constructor
  · intro s hs hext h hh
    apply mem_emit_of_mem_internet
    unfold internetFacts
    exact List.mem_flatMap.mpr
      ⟨s, List.mem_filter.mpr ⟨hs, hext⟩, List.mem_map_of_mem _ hh⟩
  · intro a hmem
    obtain ⟨h, hh, hb⟩ := hacl_dst_of_mem_emit hmem
    refine hni h hh (prolog_atom_injective ?_)
    rw [← hb]
    decide

theorem C4_witness :
    (∀ s ∈ allSubnets topoScenario, s.external = true → ∀ h ∈ s.hosts,
      Fact.hacl "internet" (prolog_atom h.name) ∈
        (emit_mulval_facts topoScenario).1) ∧
    (∀ a, Fact.hacl a "internet" ∉ (emit_mulval_facts topoScenario).1) :=
  C4_internet_ingress_only topoScenario (by decide)

/-- C3 counterexample: a `SubnetConnection` whose two endpoints are the
same subnet makes the 4c cross-product re-emit each of that subnet's
self-reachability facts, so `hacl(H,H,_,_)` appears twice; likewise a
host literally named `internet` in an external subnet receives its
self fact a second time from the internet-ingress step. -/
theorem C3_counterexample :
    hostPlain ∈ allHosts topoSelfLoop ∧
    (emit_mulval_facts topoSelfLoop).1.count
      (Fact.hacl (prolog_atom hostPlain.name) (prolog_atom hostPlain.name)) = 2 ∧
    hostNamedInternet ∈ allHosts topoInternetHost ∧
    (emit_mulval_facts topoInternetHost).1.count
      (Fact.hacl (prolog_atom hostNamedInternet.name)
        (prolog_atom hostNamedInternet.name)) = 2 := by
  refine ⟨by decide, by decide, by decide, by decide⟩

/-- C3 (amended): for every host H of a topology with topology-wide
unique host names, no self-connection (`from_subnet ≠ to_subnet` for
every declared connection) and no host named `internet`, the fact
`hacl(H,H,_,_)` appears exactly once in the output. -/
theorem C3_self_reachability_exactly_once (t : NetworkTopology) (h : Host)
    (hmem : h ∈ allHosts t)
    (hnodup : ((allHosts t).map Host.name).Nodup)
    (hnoself : ∀ c ∈ t.subnet_connections, c.from_subnet ≠ c.to_subnet)
    (hni : ∀ h' ∈ allHosts t, h'.name ≠ "internet") :
    (emit_mulval_facts t).1.count
      (Fact.hacl (prolog_atom h.name) (prolog_atom h.name)) = 1 := by
  have hinj : Function.Injective
      (fun nm => Fact.hacl (prolog_atom nm) (prolog_atom nm)) := by
    intro a b hab
    obtain ⟨h1, -⟩ := (Fact.hacl.injEq _ _ _ _).mp hab
    exact prolog_atom_injective h1
  have hself : (selfReachFacts t).count
      (Fact.hacl (prolog_atom h.name) (prolog_atom h.name)) = 1 := by
    have hsr : selfReachFacts t = ((allHosts t).map Host.name).map
        (fun nm => Fact.hacl (prolog_atom nm) (prolog_atom nm)) := by
      unfold selfReachFacts
      rw [List.map_map]
      exact rfl
    rw [hsr, List.count_map_of_injective _ _ hinj]
    exact List.count_eq_one_of_mem hnodup (List.mem_map_of_mem _ hmem)
  have hintra : Fact.hacl (prolog_atom h.name) (prolog_atom h.name) ∉
      intraFacts t := by
    intro hmem'
    obtain ⟨s, hs, i, j, x, y, hij, hpi, hpj, heq⟩ := intraFacts_shape hmem'
    obtain ⟨h1, h2⟩ := (Fact.hacl.injEq _ _ _ _).mp heq
    have hxy : x.name = y.name := by
      rw [← prolog_atom_injective h1, ← prolog_atom_injective h2]
    have hgi : s.hosts[i]? = some x := List.mk_mem_enum_iff_getElem?.mp hpi
    have hgj : s.hosts[j]? = some y := List.mk_mem_enum_iff_getElem?.mp hpj
    have hmi : (s.hosts.map Host.name)[i]? = some x.name := by
      rw [List.getElem?_map, hgi]; rfl
    have hmj : (s.hosts.map Host.name)[j]? = some y.name := by
      rw [List.getElem?_map, hgj]; rfl
    have hlen : i < (s.hosts.map Host.name).length :=
      (List.getElem?_eq_some_iff.mp hmi).1
    exact hij (List.getElem?_inj hlen (subnet_names_nodup hnodup hs)
      (by rw [hmi, hmj, hxy]))
  have hconns : Fact.hacl (prolog_atom h.name) (prolog_atom h.name) ∉
      connsFacts t := by
    intro hmem'
    obtain ⟨conn, hcm, hc⟩ := List.mem_flatMap.mp hmem'
    obtain ⟨hs1, hs2, hm1, hm2, hcase⟩ := connFacts_shape hc
    obtain ⟨sf, hsf, hsfn, hhs1⟩ := subnet_hosts_map_some hm1
    obtain ⟨st, hst, hstn, hhs2⟩ := subnet_hosts_map_some hm2
    have hsne : sf ≠ st := by
      intro hcontra
      exact hnoself conn hcm (by rw [← hsfn, ← hstn, hcontra])
    rcases hcase with ⟨x, hx, y, hy, heq⟩ | ⟨-, x, hx, y, hy, heq⟩
    · obtain ⟨h1, h2⟩ := (Fact.hacl.injEq _ _ _ _).mp heq
      have hxy : x.name = y.name := by
        rw [← prolog_atom_injective h1, ← prolog_atom_injective h2]
      exact names_disjoint hnodup hsf hst hsne (hhs1 ▸ hx) (hhs2 ▸ hy) hxy
    · obtain ⟨h1, h2⟩ := (Fact.hacl.injEq _ _ _ _).mp heq
      have hxy : x.name = y.name := by
        rw [← prolog_atom_injective h1, ← prolog_atom_injective h2]
      exact names_disjoint hnodup hst hsf (fun hc2 => hsne hc2.symm)
        (hhs2 ▸ hx) (hhs1 ▸ hy) hxy
  have hinet : Fact.hacl (prolog_atom h.name) (prolog_atom h.name) ∉
      internetFacts t := by
    intro hmem'
    obtain ⟨s, hs, -, h', hh', heq⟩ := internetFacts_shape hmem'
    obtain ⟨h1, -⟩ := (Fact.hacl.injEq _ _ _ _).mp heq
    refine hni h hmem (prolog_atom_injective ?_)
    rw [h1]
    decide
  have hgoals : Fact.hacl (prolog_atom h.name) (prolog_atom h.name) ∉
      goalsFacts t := by
    intro hmem'
    obtain ⟨a, b, he⟩ := goalsFacts_shape hmem'
    cases he
  have haccs : Fact.hacl (prolog_atom h.name) (prolog_atom h.name) ∉
      accountsFacts t := by
    intro hmem'
    obtain ⟨x, -, u, -, he⟩ := accountsFacts_shape hmem'
    cases he
  have hvuln : Fact.hacl (prolog_atom h.name) (prolog_atom h.name) ∉
      vulnFacts t := by
    intro hmem'
    rcases vulnFacts_shape hmem' with ⟨s, he⟩ | ⟨h', -, v, -, m, -, he | ⟨u, he⟩⟩ <;>
      cases he
  have hvp : Fact.hacl (prolog_atom h.name) (prolog_atom h.name) ∉
      vulPropertyFacts (seenTriples t) := by
    intro hmem'
    obtain ⟨p, -, he⟩ := vulPropertyFacts_shape hmem'
    cases he
  simp only [emit_mulval_facts, List.count_append]
  rw [hself, List.count_eq_zero.mpr hintra, List.count_eq_zero.mpr hconns,
    List.count_eq_zero.mpr hinet, List.count_eq_zero.mpr hgoals,
    List.count_eq_zero.mpr haccs, List.count_eq_zero.mpr hvuln,
    List.count_eq_zero.mpr hvp]
  simp

theorem C3_witness :
    (emit_mulval_facts topoScenario).1.count
      (Fact.hacl (prolog_atom hostWeb.name) (prolog_atom hostWeb.name)) = 1 :=
  C3_self_reachability_exactly_once topoScenario hostWeb (by decide) (by decide)
    (by decide) (by decide)

/-- Every triple of `vuln_properties_seen` is the catalog descriptor's
`(vuln_id, range, consequence)`, verbatim, of a vulnerability carried by
some host. -/
theorem seenTriples_shape {t : NetworkTopology} {p : String × String × String}
    (hp : p ∈ seenTriples t) :
    ∃ h, h ∈ allHosts t ∧ ∃ v, v ∈ h.vulnerabilities ∧
      ∃ m, VULN_LOOKUP v.playbook_path = some m ∧
        p = (m.vuln_id, m.range, m.consequence) := by
  obtain ⟨h, hh, hpb⟩ := List.mem_flatMap.mp hp
  unfold hostVulnBlock at hpb
  by_cases he : h.vulnerabilities.isEmpty
  · rw [if_pos he] at hpb; cases hpb
  · rw [if_neg he] at hpb
    obtain ⟨v, hv, hpv⟩ := List.mem_flatMap.mp hpb
    unfold vulnEmit at hpv
    cases hl : VULN_LOOKUP v.playbook_path <;> rw [hl] at hpv
    · cases hpv
    · next m =>
      rw [List.mem_singleton] at hpv
      exact ⟨h, hh, v, hv, m, hl, hpv⟩

/-- C6 counterexample: the Struts vulnerability id is stored pre-quoted in
the catalog and emitted verbatim; applying the sanitizer to it would
double-quote it, and the sanitized form never appears in the output. -/
theorem C6_counterexample :
    (VULN_LOOKUP strutsPath).map VulnMapping.vuln_id = some "'CVE-2017-5638'" ∧
    Fact.vulExists "web_0" "'CVE-2017-5638'" "httpd" ∈
      (emit_mulval_facts topoScenario).1 ∧
    prolog_atom "'CVE-2017-5638'" = "''CVE-2017-5638''" ∧
    Fact.vulExists "web_0" (prolog_atom "'CVE-2017-5638'") "httpd" ∉
      (emit_mulval_facts topoScenario).1 := by
  refine ⟨by decide, by decide, by decide, by decide⟩

/-- C6 (amended): host names and usernames are sanitized before emission
(every `hasAccount` fact binds the sanitized namespaced principal and the
sanitized host name), but the vulnerability identifier argument of every
`vulExists` and `vulProperty` fact is the catalog's `vuln_id` string
verbatim, not the sanitizer applied to it. -/
theorem C6_identifier_sanitization (t : NetworkTopology) :
    (∀ f ∈ accountsFacts t, ∃ h, h ∈ allHosts t ∧ ∃ u, u ∈ h.users ∧
      f = Fact.hasAccount (prolog_atom (namespace_username u.username h.name))
        (prolog_atom h.name) (if u.is_admin then "root" else "user")) ∧
    (∀ host vid prog, Fact.vulExists host vid prog ∈ (emit_mulval_facts t).1 →
      ∃ h, h ∈ allHosts t ∧ ∃ v, v ∈ h.vulnerabilities ∧
        ∃ m, VULN_LOOKUP v.playbook_path = some m ∧
          host = prolog_atom h.name ∧ vid = m.vuln_id ∧ prog = m.program) ∧
    (∀ vid range conseq,
      Fact.vulProperty vid range conseq ∈ (emit_mulval_facts t).1 →
      ∃ h, h ∈ allHosts t ∧ ∃ v, v ∈ h.vulnerabilities ∧
        ∃ m, VULN_LOOKUP v.playbook_path = some m ∧
          vid = m.vuln_id ∧ range = m.range ∧ conseq = m.consequence) := by
  refine ⟨fun f hf => accountsFacts_shape hf, ?_, ?_⟩
  · intro host vid prog hmem
    rcases mem_emit_cases hmem with
      h|h|h|h|h|h|h|h|h|h|h|h|h|h|h|h
    · cases h
    · cases h
    · cases h
    · cases h
    · obtain ⟨a, b, he⟩ := goalsFacts_shape h; cases he
    · cases h
    · cases h
    · obtain ⟨x, -, u, -, he⟩ := accountsFacts_shape h; cases he
    · obtain ⟨h', -, he⟩ := selfReachFacts_shape h; cases he
    · obtain ⟨s, -, i, j, a, b, -, -, -, he⟩ := intraFacts_shape h; cases he
    · obtain ⟨conn, -, hc⟩ := List.mem_flatMap.mp h
      obtain ⟨hs1, hs2, -, -, hcase⟩ := connFacts_shape hc
      rcases hcase with ⟨x, -, y, -, he⟩ | ⟨-, x, -, y, -, he⟩ <;> cases he
    · obtain ⟨s, -, -, h', -, he⟩ := internetFacts_shape h; cases he
    · cases h
    · rcases vulnFacts_shape h with ⟨s, he⟩ |
        ⟨h', hh', v, hv, m, hm, he | ⟨u, he⟩⟩
      · cases he
      · obtain ⟨e1, e2, e3⟩ := (Fact.vulExists.injEq _ _ _ _ _ _).mp he
        exact ⟨h', hh', v, hv, m, hm, e1, e2, e3⟩
      · cases he
    · cases h
    · obtain ⟨p, -, he⟩ := vulPropertyFacts_shape h; cases he
  · intro vid range conseq hmem
    rcases mem_emit_cases hmem with
      h|h|h|h|h|h|h|h|h|h|h|h|h|h|h|h
    · cases h
    · cases h
    · cases h
    · cases h
    · obtain ⟨a, b, he⟩ := goalsFacts_shape h; cases he
    · cases h
    · cases h
    · obtain ⟨x, -, u, -, he⟩ := accountsFacts_shape h; cases he
    · obtain ⟨h', -, he⟩ := selfReachFacts_shape h; cases he
    · obtain ⟨s, -, i, j, a, b, -, -, -, he⟩ := intraFacts_shape h; cases he
    · obtain ⟨conn, -, hc⟩ := List.mem_flatMap.mp h
      obtain ⟨hs1, hs2, -, -, hcase⟩ := connFacts_shape hc
      rcases hcase with ⟨x, -, y, -, he⟩ | ⟨-, x, -, y, -, he⟩ <;> cases he
    · obtain ⟨s, -, -, h', -, he⟩ := internetFacts_shape h; cases he
    · cases h
    · rcases vulnFacts_shape h with ⟨s, he⟩ |
        ⟨h', hh', v, hv, m, hm, he | ⟨u, he⟩⟩ <;> cases he
    · cases h
    · obtain ⟨p, hp, he⟩ := vulPropertyFacts_shape h
      obtain ⟨h', hh', v, hv, m, hm, hpm⟩ := seenTriples_shape hp
      obtain ⟨e1, e2, e3⟩ := (Fact.vulProperty.injEq _ _ _ _ _ _).mp he
      refine ⟨h', hh', v, hv, m, hm, ?_, ?_, ?_⟩
      · rw [e1, hpm]
      · rw [e2, hpm]
      · rw [e3, hpm]

/-! ## The triple order (Python tuple comparison) -/

theorem tripleLeR_iff {a b : String × String × String} :
    tripleLeR a b ↔
      (a.1 < b.1 ∨ (a.1 = b.1 ∧
        (a.2.1 < b.2.1 ∨ (a.2.1 = b.2.1 ∧ a.2.2 ≤ b.2.2)))) := by
  unfold tripleLeR tripleLe
  rw [decide_eq_true_eq]

theorem tripleLeR_trans {a b c : String × String × String}
    (hab : tripleLeR a b) (hbc : tripleLeR b c) : tripleLeR a c := by
  rw [tripleLeR_iff] at *
  rcases hab with h1 | ⟨e1, h1⟩ <;> rcases hbc with h2 | ⟨e2, h2⟩
  · exact Or.inl (lt_trans h1 h2)
  · exact Or.inl (e2 ▸ h1)
  · exact Or.inl (e1 ▸ h2)
  · refine Or.inr ⟨e1.trans e2, ?_⟩
    rcases h1 with h1 | ⟨f1, h1⟩ <;> rcases h2 with h2 | ⟨f2, h2⟩
    · exact Or.inl (lt_trans h1 h2)
    · exact Or.inl (f2 ▸ h1)
    · exact Or.inl (f1 ▸ h2)
    · exact Or.inr ⟨f1.trans f2, le_trans h1 h2⟩

theorem tripleLeR_total (a b : String × String × String) :
    tripleLeR a b ∨ tripleLeR b a := by
  rw [tripleLeR_iff, tripleLeR_iff]
  rcases lt_trichotomy a.1 b.1 with h1 | h1 | h1
  · exact Or.inl (Or.inl h1)
  · rcases lt_trichotomy a.2.1 b.2.1 with h2 | h2 | h2
    · exact Or.inl (Or.inr ⟨h1, Or.inl h2⟩)
    · rcases le_total a.2.2 b.2.2 with h3 | h3
      · exact Or.inl (Or.inr ⟨h1, Or.inr ⟨h2, h3⟩⟩)
      · exact Or.inr (Or.inr ⟨h1.symm, Or.inr ⟨h2.symm, h3⟩⟩)
    · exact Or.inr (Or.inr ⟨h1.symm, Or.inl h2⟩)
  · exact Or.inr (Or.inl h1)

theorem tripleLeR_antisymm {a b : String × String × String}
    (hab : tripleLeR a b) (hba : tripleLeR b a) : a = b := by
  rw [tripleLeR_iff] at hab hba
  rcases hab with h1 | ⟨e1, h1⟩
  · rcases hba with h2 | ⟨e2, h2⟩
    · exact absurd h2 (lt_asymm h1)
    · exact absurd h1 (e2 ▸ lt_irrefl b.1)
  · rcases hba with h2 | ⟨e2, h2⟩
    · exact absurd h2 (e1 ▸ lt_irrefl a.1)
    · rcases h1 with h1 | ⟨f1, h1⟩
      · rcases h2 with h2 | ⟨f2, h2⟩
        · exact absurd h2 (lt_asymm h1)
        · exact absurd h1 (f2 ▸ lt_irrefl b.2.1)
      · rcases h2 with h2 | ⟨f2, h2⟩
        · exact absurd h2 (f1 ▸ lt_irrefl a.2.1)
        · have h3 : a.2.2 = b.2.2 := le_antisymm h1 h2
          have : a.2 = b.2 := Prod.ext f1 h3
          exact Prod.ext e1 this

/-- Distinct catalog entries carry distinct vulnerability ids, so an
entry is determined by its id. -/
theorem VULN_LOOKUP_vuln_id_inj {p1 p2 : String} {m1 m2 : VulnMapping}
    (h1 : VULN_LOOKUP p1 = some m1) (h2 : VULN_LOOKUP p2 = some m2)
    (hid : m1.vuln_id = m2.vuln_id) : m1 = m2 := by
  unfold VULN_LOOKUP at h1 h2
  split at h1 <;> split at h2 <;>
    first
      | (exact Option.noConfusion h1)
      | (exact Option.noConfusion h2)
      | (injection h1 with e1; injection h2 with e2; subst e1; subst e2;
         first
           | rfl
           | (revert hid; decide))

/-! ## Counting `vulExists` and `vulProperty` facts -/

theorem vulnEmit_countP_vid (h : Host) (v : Vulnerability) (vid : String) :
    ((vulnEmit h v).1.countP (isVulExistsWithId vid)) =
      (if ((VULN_LOOKUP v.playbook_path).map VulnMapping.vuln_id) == some vid
       then 1 else 0) := by
  unfold vulnEmit
  cases hl : VULN_LOOKUP v.playbook_path
  · simp [isVulExistsWithId]
  · next m =>
    by_cases hr : m.range = "remoteExploit" <;>
      simp [hr, isVulExistsWithId, List.countP_cons]

theorem sum_vulnEmit_countP (h : Host) (vid : String) :
    ∀ l : List Vulnerability,
      (l.map (fun v => ((vulnEmit h v).1.countP (isVulExistsWithId vid)))).sum =
      l.countP (fun v =>
        ((VULN_LOOKUP v.playbook_path).map VulnMapping.vuln_id) == some vid)
  | [] => rfl
  | v :: l => by
    rw [List.map_cons, List.sum_cons, List.countP_cons, vulnEmit_countP_vid,
      sum_vulnEmit_countP h vid l]
    by_cases hc :
        ((VULN_LOOKUP v.playbook_path).map VulnMapping.vuln_id) == some vid <;>
      simp [hc, Nat.add_comm]

theorem hostVulnBlock_countP_vid (h : Host) (vid : String) :
    ((hostVulnBlock h).1.countP (isVulExistsWithId vid)) =
      h.vulnerabilities.countP (fun v =>
        ((VULN_LOOKUP v.playbook_path).map VulnMapping.vuln_id) == some vid) := by
  unfold hostVulnBlock
  by_cases he : h.vulnerabilities.isEmpty
  · rw [if_pos he, List.isEmpty_iff.mp he]
    rfl
  · rw [if_neg he]
    rw [List.countP_cons]
    have hcomment : isVulExistsWithId vid (Fact.comment h.name) = false := rfl
    rw [hcomment]
    rw [List.countP_flatMap]
    have hcomp : (List.countP (isVulExistsWithId vid) ∘
        fun v => (vulnEmit h v).1) =
        fun v => ((vulnEmit h v).1.countP (isVulExistsWithId vid)) := rfl
    rw [hcomp, sum_vulnEmit_countP]
    simp

/-- C7: for a catalog entry carried by N ≥ 1 vulnerability occurrences,
the output holds exactly N `vulExists` facts with its id but exactly one
`vulProperty` fact for its `(vuln_id, range, consequence)` triple; the
`vulProperty` section is sorted by the triple order, and its contents
depend only on the set — not the order — of encountered triples. -/
theorem C7_vulproperty_dedup_sorted
    (t : NetworkTopology) (p : String) (m : VulnMapping)
    (hm : VULN_LOOKUP p = some m)
    (hN : 0 < occurrencesWithId t m.vuln_id) :
    ((emit_mulval_facts t).1.countP (isVulExistsWithId m.vuln_id)) =
      occurrencesWithId t m.vuln_id ∧
    ((emit_mulval_facts t).1.count
      (Fact.vulProperty m.vuln_id m.range m.consequence)) = 1 ∧
    List.Sorted tripleLeR (List.insertionSort tripleLeR (seenTriples t).dedup) ∧
    (∀ l1 l2 : List (String × String × String), (∀ x, x ∈ l1 ↔ x ∈ l2) →
      vulPropertyFacts l1 = vulPropertyFacts l2) := by
  haveI hTrans : IsTrans _ tripleLeR := ⟨fun _ _ _ hab hbc => tripleLeR_trans hab hbc⟩
  haveI hTotal : IsTotal _ tripleLeR := ⟨tripleLeR_total⟩
  haveI hAnti : IsAntisymm _ tripleLeR := ⟨fun _ _ h1 h2 => tripleLeR_antisymm h1 h2⟩
  refine ⟨?_, ?_, List.sorted_insertionSort _ _, ?_⟩
  · -- vulExists count
    have hz : ∀ (sec : List Fact),
        (∀ f ∈ sec, ∃ g, f = g ∧ isVulExistsWithId m.vuln_id g = false) →
        sec.countP (isVulExistsWithId m.vuln_id) = 0 := by
      intro sec hsec
      rw [List.countP_eq_zero]
      intro f hf
      obtain ⟨g, hg, hgf⟩ := hsec f hf
      rw [hg, hgf]
      exact Bool.false_ne_true
    simp only [emit_mulval_facts, List.countP_append]
    rw [hz (goalsFacts t) (fun f hf => by
      obtain ⟨a, b, he⟩ := goalsFacts_shape hf; exact ⟨_, he, rfl⟩)]
    rw [hz (accountsFacts t) (fun f hf => by
      obtain ⟨x, -, u, -, he⟩ := accountsFacts_shape hf; exact ⟨_, he, rfl⟩)]
    rw [hz (selfReachFacts t) (fun f hf => by
      obtain ⟨h', -, he⟩ := selfReachFacts_shape hf; exact ⟨_, he, rfl⟩)]
    rw [hz (intraFacts t) (fun f hf => by
      obtain ⟨s, -, i, j, a, b, -, -, -, he⟩ := intraFacts_shape hf
      exact ⟨_, he, rfl⟩)]
    rw [hz (connsFacts t) (fun f hf => by
      obtain ⟨conn, -, hc⟩ := List.mem_flatMap.mp hf
      obtain ⟨hs1, hs2, -, -, hcase⟩ := connFacts_shape hc
      rcases hcase with ⟨x, -, y, -, he⟩ | ⟨-, x, -, y, -, he⟩ <;>
        exact ⟨_, he, rfl⟩)]
    rw [hz (internetFacts t) (fun f hf => by
      obtain ⟨s, -, -, h', -, he⟩ := internetFacts_shape hf; exact ⟨_, he, rfl⟩)]
    rw [hz (vulPropertyFacts (seenTriples t)) (fun f hf => by
      obtain ⟨q, -, he⟩ := vulPropertyFacts_shape hf; exact ⟨_, he, rfl⟩)]
    have hvf : (vulnFacts t).countP (isVulExistsWithId m.vuln_id) =
        occurrencesWithId t m.vuln_id := by
      unfold vulnFacts occurrencesWithId
      rw [List.countP_flatMap, List.countP_flatMap]
      have h1 : (List.countP (isVulExistsWithId m.vuln_id) ∘
          fun h => (hostVulnBlock h).1) =
          fun h => h.vulnerabilities.countP (fun v =>
            ((VULN_LOOKUP v.playbook_path).map VulnMapping.vuln_id) ==
              some m.vuln_id) := by
        funext h
        exact hostVulnBlock_countP_vid h m.vuln_id
      rw [h1]
      rfl
    rw [hvf]
    simp [isVulExistsWithId]
  · -- vulProperty count
    have htrip : (m.vuln_id, m.range, m.consequence) ∈ seenTriples t := by
      unfold occurrencesWithId at hN
      obtain ⟨v, hvmem, hpred⟩ := List.countP_pos_iff.mp hN
      obtain ⟨h, hh, hv⟩ := List.mem_flatMap.mp hvmem
      cases hl : VULN_LOOKUP v.playbook_path with
      | none => rw [hl] at hpred; simp at hpred
      | some m' =>
        rw [hl] at hpred
        simp at hpred
        have hmm : m' = m := VULN_LOOKUP_vuln_id_inj hl hm hpred
        subst hmm
        unfold seenTriples
        rw [List.mem_flatMap]
        refine ⟨h, hh, ?_⟩
        unfold hostVulnBlock
        rw [if_neg (fun hemp =>
          absurd hv (by rw [List.isEmpty_iff.mp hemp]; exact List.not_mem_nil v))]
        rw [List.mem_flatMap]
        refine ⟨v, hv, ?_⟩
        unfold vulnEmit
        rw [hl]
        exact List.mem_singleton.mpr rfl
    have hvpcount : (vulPropertyFacts (seenTriples t)).count
        (Fact.vulProperty m.vuln_id m.range m.consequence) = 1 := by
      unfold vulPropertyFacts
      have hg_inj : Function.Injective
          (fun q : String × String × String =>
            Fact.vulProperty q.1 q.2.1 q.2.2) := by
        intro q r hqr
        obtain ⟨e1, e2, e3⟩ := (Fact.vulProperty.injEq _ _ _ _ _ _).mp hqr
        exact Prod.ext e1 (Prod.ext e2 e3)
      have hfe : Fact.vulProperty m.vuln_id m.range m.consequence =
          (fun q : String × String × String =>
            Fact.vulProperty q.1 q.2.1 q.2.2)
            (m.vuln_id, m.range, m.consequence) := rfl
      rw [hfe, List.count_map_of_injective _ _ hg_inj]
      rw [(List.perm_insertionSort tripleLeR (seenTriples t).dedup).count_eq]
      exact List.count_eq_one_of_mem (List.nodup_dedup _)
        (List.mem_dedup.mpr htrip)
    have hz : ∀ (sec : List Fact),
        (∀ f ∈ sec, f ≠ Fact.vulProperty m.vuln_id m.range m.consequence) →
        sec.count (Fact.vulProperty m.vuln_id m.range m.consequence) = 0 := by
      intro sec hsec
      rw [List.count_eq_zero]
      intro hmem
      exact hsec _ hmem rfl
    simp only [emit_mulval_facts, List.count_append]
    rw [hz (goalsFacts t) (fun f hf => by
      obtain ⟨a, b, he⟩ := goalsFacts_shape hf; rw [he]; intro hc; cases hc)]
    rw [hz (accountsFacts t) (fun f hf => by
      obtain ⟨x, -, u, -, he⟩ := accountsFacts_shape hf
      rw [he]; intro hc; cases hc)]
    rw [hz (selfReachFacts t) (fun f hf => by
      obtain ⟨h', -, he⟩ := selfReachFacts_shape hf; rw [he]; intro hc; cases hc)]
    rw [hz (intraFacts t) (fun f hf => by
      obtain ⟨s, -, i, j, a, b, -, -, -, he⟩ := intraFacts_shape hf
      rw [he]; intro hc; cases hc)]
    rw [hz (connsFacts t) (fun f hf => by
      obtain ⟨conn, -, hc'⟩ := List.mem_flatMap.mp hf
      obtain ⟨hs1, hs2, -, -, hcase⟩ := connFacts_shape hc'
      rcases hcase with ⟨x, -, y, -, he⟩ | ⟨-, x, -, y, -, he⟩ <;>
        { rw [he]; intro hc; cases hc })]
    rw [hz (internetFacts t) (fun f hf => by
      obtain ⟨s, -, -, h', -, he⟩ := internetFacts_shape hf
      rw [he]; intro hc; cases hc)]
    rw [hz (vulnFacts t) (fun f hf => by
      rcases vulnFacts_shape hf with ⟨s, he⟩ |
        ⟨h', -, v, -, m', -, he | ⟨u, he⟩⟩ <;>
        { rw [he]; intro hc; cases hc })]
    rw [hvpcount]
    simp
  · -- order independence
    intro l1 l2 hiff
    have hperm : l1.dedup.Perm l2.dedup :=
      (List.perm_ext_iff_of_nodup (List.nodup_dedup l1) (List.nodup_dedup l2)).mpr
        (fun a => by rw [List.mem_dedup, List.mem_dedup]; exact hiff a)
    have hperm2 : (List.insertionSort tripleLeR l1.dedup).Perm
        (List.insertionSort tripleLeR l2.dedup) :=
      ((List.perm_insertionSort _ _).trans hperm).trans
        (List.perm_insertionSort _ _).symm
    have hs : List.insertionSort tripleLeR l1.dedup =
        List.insertionSort tripleLeR l2.dedup :=
      List.eq_of_perm_of_sorted hperm2 (List.sorted_insertionSort _ _)
        (List.sorted_insertionSort _ _)
    unfold vulPropertyFacts
    rw [hs]

theorem C7_witness :
    ((emit_mulval_facts topoScenario).1.countP
      (isVulExistsWithId strutsMapping.vuln_id)) =
      occurrencesWithId topoScenario strutsMapping.vuln_id ∧
    ((emit_mulval_facts topoScenario).1.count
      (Fact.vulProperty strutsMapping.vuln_id strutsMapping.range
        strutsMapping.consequence)) = 1 ∧
    List.Sorted tripleLeR
      (List.insertionSort tripleLeR (seenTriples topoScenario).dedup) ∧
    (∀ l1 l2 : List (String × String × String), (∀ x, x ∈ l1 ↔ x ∈ l2) →
      vulPropertyFacts l1 = vulPropertyFacts l2) :=
  C7_vulproperty_dedup_sorted topoScenario strutsPath strutsMapping
    (by decide) (by decide)

end MulvalExporter
